import Mathlib

/-!
Verification of the Tetris simulation core (grid engine, heuristic autopilot,
and animation-step executor).

The definitions below are a shallow embedding of the TypeScript source:

  - src/logic/TetrisAI.ts    (class TetrisGame: grid, bag, spawn, lock,
                              line clears, collision, rotation, AI search)
  - src/logic/SceneManager.ts (performAIInterpStep: the per-tick move executor)
  - the SHAPES constant        (the 7 tetromino definitions)

Modelling conventions:
  - JS numbers that hold scores/weights are modelled as rationals.
  - Grid cells hold the JS value: null (here: none) or a string tag.
  - Array indices that may go negative (the piece anchor x, y) are integers;
    reads and writes out of range are modelled the way the JS behaves for the
    call sites that reach them (a guarded read never happens out of range; a
    write at a negative or overflowing column index creates a non-index
    property on a JS array, invisible to every later read, hence a no-op).
  - Math.random-driven shuffles (the bag refill) are modelled by passing the
    shuffled order as an explicit parameter.
-/

namespace Tetris

/-- The 7 piece kinds, in the insertion order of the SHAPES record
(Object.keys order used by fillBag). -/
inductive PieceType where
  | I | J | L | O | S | T | Z
deriving DecidableEq, Repr

/-- The string tag stored into grid cells for a piece kind. -/
def PieceType.name : PieceType → String
  | .I => "I"
  | .J => "J"
  | .L => "L"
  | .O => "O"
  | .S => "S"
  | .T => "T"
  | .Z => "Z"

/-- One entry of the SHAPES record: base occupancy matrix, hue offset and
the renderer pivot. -/
structure Tetromino where
  shape : List (List Nat)
  colorOffset : ℚ
  pivot : ℚ × ℚ
deriving DecidableEq, Repr

/-- The SHAPES constant from the source (src/unnamed/part_002). -/
def SHAPES : PieceType → Tetromino
  | .I => ⟨[[1, 1, 1, 1]], 0, (3/2, 1/2)⟩
  | .J => ⟨[[1, 0, 0], [1, 1, 1]], 1/10, (1, 1)⟩
  | .L => ⟨[[0, 0, 1], [1, 1, 1]], 3/20, (1, 1)⟩
  | .O => ⟨[[1, 1], [1, 1]], 1/5, (1/2, 1/2)⟩
  | .S => ⟨[[0, 1, 1], [1, 1, 0]], 3/10, (1, 1)⟩
  | .T => ⟨[[0, 1, 0], [1, 1, 1]], 1/2, (1, 1)⟩
  | .Z => ⟨[[1, 1, 0], [0, 1, 1]], 4/5, (1, 1)⟩

/-- Object.keys(SHAPES): the piece kinds in record order. -/
def pieces : List PieceType := [.I, .J, .L, .O, .S, .T, .Z]

/-- The ActivePiece (field currentPiece of class TetrisGame). -/
structure Piece where
  type : PieceType
  shape : List (List Nat)
  x : ℤ
  y : ℤ
  colorOffset : ℚ
deriving DecidableEq, Repr

/-- AI decision record (the return of getBestMove). -/
structure Move where
  x : ℤ
  rotation : ℕ
  dropY : ℤ
deriving DecidableEq, Repr

/-- The mutable state of class TetrisGame. -/
structure TetrisGame where
  grid : List (List (Option String))
  rows : ℕ
  cols : ℕ
  minLinesToClear : ℕ
  enableLineClear : Bool
  currentPiece : Option Piece
  gameOver : Bool
  bag : List PieceType
deriving DecidableEq, Repr

/-- Read a grid cell; the source only reaches this read with both indices
already checked in range. -/
def gridCell (grid : List (List (Option String))) (y x : ℤ) : Option String :=
  (grid.getD y.toNat []).getD x.toNat none

/-- Write a grid cell. A JS write at a negative index stores a non-index
property invisible to all later element reads, so it is modelled as a
no-op; likewise List.set ignores an overflowing index. -/
def setCell (grid : List (List (Option String))) (y x : ℤ) (v : Option String) :
    List (List (Option String)) :=
  if 0 ≤ y ∧ 0 ≤ x then grid.set y.toNat ((grid.getD y.toNat []).set x.toNat v)
  else grid

/-- fillBag: the source shuffles two copies of every kind with a
comparator-based random sort; the resulting order is taken as a parameter. -/
def fillBag (shuffled : List PieceType) (g : TetrisGame) : TetrisGame :=
  { g with bag := shuffled }

/-- getNextPieceType: refill the bag if empty, then pop the last element.
The non-null assertion on pop is modelled with a default that is only
reachable when the refill itself is empty. -/
def getNextPieceType (refill : List PieceType) (g : TetrisGame) :
    PieceType × TetrisGame :=
  let g1 := if g.bag.isEmpty then fillBag refill g else g
  (g1.bag.getLastD PieceType.I, { g1 with bag := g1.bag.dropLast })

/-- rotateShape: outer loop over columns, inner loop over rows from the last
row down; the i-th pushed entry of output row col is shape[rows-1-i][col]. -/
def rotateShape (shape : List (List Nat)) : List (List Nat) :=
  (List.range (shape.getD 0 []).length).map fun col =>
    (List.range shape.length).map fun i =>
      (shape.getD (shape.length - 1 - i) []).getD col 0

/-- checkCollision from the source: any occupied shape cell that is out of
column bounds, at or below the last row, or over an occupied grid cell at a
nonnegative row. -/
def checkCollision (g : TetrisGame) (shape : List (List Nat)) (x y : ℤ) : Bool :=
  (List.range shape.length).any fun r =>
    (List.range (shape.getD r []).length).any fun c =>
      decide ((shape.getD r []).getD c 0 ≠ 0) &&
        (decide (x + c < 0) || decide ((g.cols : ℤ) ≤ x + c) ||
          decide ((g.rows : ℤ) ≤ y + r) ||
          (decide (0 ≤ y + r) && (gridCell g.grid (y + r) (x + c)).isSome))

/-- The horizontal spawn position: Math.floor((cols - shapeWidth) / 2). -/
def spawnX (g : TetrisGame) (ty : PieceType) : ℤ :=
  Int.fdiv ((g.cols : ℤ) - ((SHAPES ty).shape.getD 0 []).length) 2

/-- spawnPiece: draw the next kind, center it, and either flag game over
(when the spawn position collides) or install the new ActivePiece. -/
def spawnPiece (refill : List PieceType) (g : TetrisGame) : TetrisGame :=
  let drawn := getNextPieceType refill g
  let ty := drawn.1
  let g1 := drawn.2
  let defn := SHAPES ty
  let startX := spawnX g1 ty
  if checkCollision g1 defn.shape startX 0 then { g1 with gameOver := true }
  else
    { g1 with currentPiece := some ⟨ty, defn.shape, startX, 0, defn.colorOffset⟩ }

/-- A row is full when every cell is not null. -/
def isFullRow (row : List (Option String)) : Bool :=
  row.all fun cell => cell.isSome

/-- processLineClears: collect the indices of full rows; when at least
minLinesToClear of them exist, drop exactly those rows and unshift that many
empty rows on top (the unshift loop prepends one row per iteration, so the
net effect is a replicate-prepend). -/
def processLineClears (g : TetrisGame) : TetrisGame :=
  let fullRowIndices :=
    (List.range g.rows).filter fun r => isFullRow (g.grid.getD r [])
  if g.minLinesToClear ≤ fullRowIndices.length then
    let newGrid :=
      (g.grid.enum.filter fun p => !decide (p.1 ∈ fullRowIndices)).map Prod.snd
    let linesToAdd := g.rows - newGrid.length
    { g with grid := List.replicate linesToAdd (List.replicate g.cols none) ++ newGrid }
  else g

/-- The grid-writing phase of lockPiece: every occupied cell of the piece
whose resulting row lies in [0, rows) is written; others are dropped. -/
def lockWrite (g : TetrisGame) (p : Piece) : List (List (Option String)) :=
  (List.range p.shape.length).foldl
    (fun grid r =>
      (List.range ((p.shape.getD r []).length)).foldl
        (fun grid c =>
          if (p.shape.getD r []).getD c 0 ≠ 0 ∧
              0 ≤ p.y + r ∧ p.y + r < (g.rows : ℤ) then
            setCell grid (p.y + r) (p.x + c) (some p.type.name)
          else grid)
        grid)
    g.grid

/-- lockPiece: write the ActivePiece into the grid, optionally clear lines,
then spawn the next piece. No-op when no ActivePiece is set. -/
def lockPiece (refill : List PieceType) (g : TetrisGame) : TetrisGame :=
  match g.currentPiece with
  | none => g
  | some p =>
    let g1 := { g with grid := lockWrite g p }
    let g2 := if g1.enableLineClear then processLineClears g1 else g1
    spawnPiece refill g2

/-! ### The heuristic evaluation (evaluateGrid) -/

/-- The placement simulation of evaluateGrid: clone the grid and write TEMP
into every occupied shape cell whose resulting row is below rows (the only
bound the source checks; the call sites only reach this with y at least 0,
and overflowing column writes are JS non-index property writes, no-ops). -/
def placeTemp (g : TetrisGame) (shape : List (List Nat)) (x y : ℤ) :
    List (List (Option String)) :=
  (List.range shape.length).foldl
    (fun grid r =>
      (List.range ((shape.getD r []).length)).foldl
        (fun grid c =>
          if (shape.getD r []).getD c 0 ≠ 0 ∧ y + r < (g.rows : ℤ) then
            setCell grid (y + r) (x + c) (some "TEMP")
          else grid)
        grid)
    g.grid

/-- One row step of the per-column scan of evaluateGrid; the accumulator is
(columnHeight, foundTop, holes). -/
def colStep (testGrid : List (List (Option String))) (rows c : ℕ)
    (acc : ℕ × Bool × ℕ) (r : ℕ) : ℕ × Bool × ℕ :=
  if ((testGrid.getD r []).getD c none).isSome then
    if acc.2.1 then acc else (rows - r, true, acc.2.2)
  else
    if acc.2.1 then (acc.1, acc.2.1, acc.2.2 + 1) else acc

/-- The per-column scan of evaluateGrid: first-occupied height and hole
count for column c (the source interleaves the columns in one double loop;
the state for distinct columns is independent). -/
def colScan (testGrid : List (List (Option String))) (rows c : ℕ) :
    ℕ × Bool × ℕ :=
  (List.range rows).foldl (colStep testGrid rows c) (0, false, 0)

/-- evaluateGrid: simulate the placement and score the resulting grid with
the four weighted heuristics. Weights are the source float literals read as
rationals. -/
def evaluateGrid (g : TetrisGame) (shape : List (List Nat)) (x y : ℤ) : ℚ :=
  let testGrid := placeTemp g shape x y
  let columnHeights := (List.range g.cols).map fun c => (colScan testGrid g.rows c).1
  let holes := ((List.range g.cols).map fun c => (colScan testGrid g.rows c).2.2).sum
  let aggregateHeight := columnHeights.sum
  let bumpiness :=
    ((List.range (g.cols - 1)).map fun c =>
      ((columnHeights.getD c 0 : ℤ) - (columnHeights.getD (c + 1) 0 : ℤ)).natAbs).sum
  let completeLines :=
    ((List.range g.rows).filter fun r =>
      (testGrid.getD r []).all fun val => val.isSome).length
  let wHeight : ℚ := if g.enableLineClear then -51/100 else -1/5
  let wLines : ℚ := if g.enableLineClear then 76/100 else 3/2
  let wHoles : ℚ := -3/5
  let wBump : ℚ := -3/10
  wHeight * aggregateHeight + wLines * completeLines + wHoles * holes + wBump * bumpiness

/-! ### The autopilot search (getBestMove) -/

/-- The x offsets tried by getBestMove: -2, -1, ..., cols + 1 in ascending
order. -/
def xRange (g : TetrisGame) : List ℤ :=
  (List.range (g.cols + 4)).map fun i => (i : ℤ) - 2

/-- The drop loop of getBestMove, with explicit fuel: increment dy while the
next row down does not collide. -/
def dropAux (g : TetrisGame) (shape : List (List Nat)) (x : ℤ) :
    ℕ → ℤ → ℤ
  | 0, dy => dy
  | fuel + 1, dy =>
    if checkCollision g shape x (dy + 1) then dy
    else dropAux g shape x fuel (dy + 1)

/-- The landing row for a non-colliding (shape, x): rows + 1 units of fuel
always suffice, because a shape with an occupied cell collides at every
y ≥ rows (proved below), so the source loop terminates within that bound. -/
def findDropY (g : TetrisGame) (shape : List (List Nat)) (x : ℤ) : ℤ :=
  dropAux g shape x (g.rows + 1) 0

/-- The strict-improvement accumulator of getBestMove; none stands for the
initial bestScore of -Infinity. -/
def considerMove (best : Move × Option ℚ) (cand : Move × ℚ) : Move × Option ℚ :=
  match best.2 with
  | none => (cand.1, some cand.2)
  | some b => if b < cand.2 then (cand.1, some cand.2) else best

/-- The inner x loop of getBestMove for one rotation index r and the
current working shape: skip placements colliding at y = 0, drop the others,
score with evaluateGrid, keep strict improvements. -/
def searchInner (g : TetrisGame) (r : ℕ) (shape : List (List Nat))
    (best : Move × Option ℚ) : Move × Option ℚ :=
  (xRange g).foldl
    (fun best x =>
      if checkCollision g shape x 0 then best
      else
        let y := findDropY g shape x
        considerMove best (⟨x, r, y⟩, evaluateGrid g shape x y))
    best

/-- One iteration of the outer rotation loop of getBestMove: run the inner
x loop on the working shape, then rotate the working shape once. -/
def searchStep (g : TetrisGame) (acc : List (List Nat) × Move × Option ℚ)
    (r : ℕ) : List (List Nat) × Move × Option ℚ :=
  (rotateShape acc.1, searchInner g r acc.1 acc.2)

/-- getBestMove: try rotations 0..3 (rotating the working shape once per
outer iteration) and each x in xRange. Without an ActivePiece the result
degenerates to (0, 0, 0); the initial best is the current x with rotation 0
and drop 0, at score -Infinity. -/
def getBestMove (g : TetrisGame) : Move :=
  match g.currentPiece with
  | none => ⟨0, 0, 0⟩
  | some p =>
    (((List.range 4).foldl (searchStep g) (p.shape, ⟨p.x, 0, 0⟩, none)).2).1

/-- The scored candidates of one rotation index, in ascending x order. -/
def candAt (g : TetrisGame) (shape : List (List Nat)) (r : ℕ) :
    List (Move × ℚ) :=
  (xRange g).filterMap fun x =>
    if checkCollision g shape x 0 then none
    else
      let y := findDropY g shape x
      some (⟨x, r, y⟩, evaluateGrid g shape x y)

/-- The candidate placements of the search, as one flat list in iteration
order: rotation 0..3 outer (shape from iterated rotateShape), x ascending
inner, skipping placements that collide at y = 0. -/
def candidates (g : TetrisGame) (p : Piece) : List (Move × ℚ) :=
  (List.range 4).flatMap fun r => candAt g (rotateShape^[r] p.shape) r

/-- One inner step of the search in state-passing form: the game state is
read (this.grid, this.rows, this.cols, this.enableLineClear) and handed
back untouched; evaluateGrid scores a scratch clone and writes nothing. -/
def searchInnerStepSt (r : ℕ) (shape : List (List Nat))
    (bg : (Move × Option ℚ) × TetrisGame) (x : ℤ) :
    (Move × Option ℚ) × TetrisGame :=
  if checkCollision bg.2 shape x 0 then (bg.1, bg.2)
  else
    let y := findDropY bg.2 shape x
    (considerMove bg.1 (⟨x, r, y⟩, evaluateGrid bg.2 shape x y), bg.2)

/-- One outer rotation step of the search in state-passing form. -/
def searchStepSt (acc : (List (List Nat) × Move × Option ℚ) × TetrisGame)
    (r : ℕ) : (List (List Nat) × Move × Option ℚ) × TetrisGame :=
  let inner := (xRange acc.2).foldl (searchInnerStepSt r acc.1.1) (acc.1.2, acc.2)
  ((rotateShape acc.1.1, inner.1), inner.2)

/-- getBestMove in state-passing form: every read of the class state is
threaded explicitly, so that the absence of writes becomes the provable
statement that the returned state is the input state. -/
def getBestMoveSt (g : TetrisGame) : Move × TetrisGame :=
  match g.currentPiece with
  | none => (⟨0, 0, 0⟩, g)
  | some p =>
    let res := (List.range 4).foldl searchStepSt ((p.shape, ⟨p.x, 0, 0⟩, none), g)
    (res.1.2.1, res.2)

/-- A shape with at least one occupied cell (all 7 kinds and their
rotations qualify); without one the source drop loop would not terminate. -/
def hasOccupiedCell (shape : List (List Nat)) : Bool :=
  shape.any fun row => row.any fun cell => decide (cell ≠ 0)

/-! ### The move executor (performAIInterpStep of SceneManager.ts) -/

/-- The executor state slice of SceneManager: the in-flight decision, the
busy flag and the sub-step index (0 = rotating, 1 = translating,
2 = descending). -/
structure ExecState where
  game : TetrisGame
  currentMove : Option Move
  isProcessingMove : Bool
  moveStepIndex : ℕ
deriving DecidableEq, Repr

/-- One executor sub-step (performAIInterpStep). Step 0 applies all
rotations at once; step 1 moves x by one toward the target, advancing only
when already there; step 2 descends one row or locks and goes idle. -/
def performAIInterpStep (refill : List PieceType) (s : ExecState) : ExecState :=
  match s.currentMove, s.game.currentPiece with
  | some mv, some p =>
    if s.moveStepIndex = 0 then
      { s with
        game := { s.game with
          currentPiece := some { p with shape := rotateShape^[mv.rotation] p.shape } }
        moveStepIndex := 1 }
    else if s.moveStepIndex = 1 then
      if p.x < mv.x then
        { s with game := { s.game with currentPiece := some { p with x := p.x + 1 } } }
      else if mv.x < p.x then
        { s with game := { s.game with currentPiece := some { p with x := p.x - 1 } } }
      else { s with moveStepIndex := 2 }
    else if s.moveStepIndex = 2 then
      if !checkCollision s.game p.shape p.x (p.y + 1) then
        { s with game := { s.game with currentPiece := some { p with y := p.y + 1 } } }
      else
        { s with
          game := lockPiece refill s.game
          isProcessingMove := false
          currentMove := none }
    else s
  | _, _ => { s with isProcessingMove := false }

/-! ### Bag draws -/

/-- Iterated draws from the bag; the given refill order is installed by
fillBag whenever a draw finds the bag empty. -/
def drawN (refill : List PieceType) : ℕ → TetrisGame → List PieceType × TetrisGame
  | 0, g => ([], g)
  | n + 1, g =>
    let t := getNextPieceType refill g
    let rest := drawN refill n t.2
    (t.1 :: rest.1, rest.2)

/-! ### Spec-side feature definitions and concrete demo states -/

/-- A concrete state about to lock: a 2 x 2 board, the O piece at the
origin, a clear threshold that cannot be met, and one O left in the bag. -/
def lockDemoGame : TetrisGame :=
  { grid := [[none, none], [none, none]], rows := 2, cols := 2,
    minLinesToClear := 3, enableLineClear := true,
    currentPiece := some ⟨.O, (SHAPES .O).shape, 0, 0, (SHAPES .O).colorOffset⟩,
    gameOver := false, bag := [.O] }

/-- Cell access in an occupancy matrix, with 0 (empty) out of range. -/
def cellAt (s : List (List Nat)) (r c : ℕ) : ℕ :=
  (s.getD r []).getD c 0

/-- A refill order whose two Z copies are drawn first (draws pop from the
back). -/
def bagZFirst : List PieceType :=
  [.I, .J, .L, .O, .S, .T, .I, .J, .L, .O, .S, .T, .Z, .Z]

/-- A refill order whose two Z copies are drawn last. -/
def bagZLast : List PieceType :=
  [.Z, .Z, .I, .J, .L, .O, .S, .T, .I, .J, .L, .O, .S, .T]

/-- A concrete search instance: an empty 4 x 4 board with the O piece. -/
def searchDemoGame : TetrisGame :=
  { grid := List.replicate 4 (List.replicate 4 none), rows := 4, cols := 4,
    minLinesToClear := 1, enableLineClear := true,
    currentPiece := some ⟨.O, (SHAPES .O).shape, 1, 0, (SHAPES .O).colorOffset⟩,
    gameOver := false, bag := [] }

/-- A board too small for any placement: 1 x 1 with the O piece. -/
def fallbackDemoGame : TetrisGame :=
  { grid := [[none]], rows := 1, cols := 1,
    minLinesToClear := 1, enableLineClear := true,
    currentPiece := some ⟨.O, (SHAPES .O).shape, 0, 0, (SHAPES .O).colorOffset⟩,
    gameOver := false, bag := [] }

/-- Spec feature: column height, the rows-from-top height of the first
occupied cell of the column (rows minus its row index), 0 for an empty
column. -/
def columnHeightSpec (grid : List (List (Option String))) (rows c : ℕ) : ℕ :=
  match (List.range rows).find? (fun r => ((grid.getD r []).getD c none).isSome) with
  | some r => rows - r
  | none => 0

/-- Spec feature: the holes of one column, the empty cells with an occupied
cell above them in the same column. -/
def columnHolesSpec (grid : List (List (Option String))) (rows c : ℕ) : ℕ :=
  ((List.range rows).filter fun r =>
    !((grid.getD r []).getD c none).isSome &&
      (List.range r).any fun i => ((grid.getD i []).getD c none).isSome).length

/-- Spec feature: aggregate height, the sum of the column heights. -/
def aggregateHeightSpec (grid : List (List (Option String))) (rows cols : ℕ) : ℕ :=
  ((List.range cols).map fun c => columnHeightSpec grid rows c).sum

/-- Spec feature: total hole count. -/
def holesSpec (grid : List (List (Option String))) (rows cols : ℕ) : ℕ :=
  ((List.range cols).map fun c => columnHolesSpec grid rows c).sum

/-- Spec feature: bumpiness, the sum over adjacent columns of the absolute
height differences. -/
def bumpinessSpec (grid : List (List (Option String))) (rows cols : ℕ) : ℕ :=
  ((List.range (cols - 1)).map fun c =>
    ((columnHeightSpec grid rows c : ℤ) - (columnHeightSpec grid rows (c + 1) : ℤ)).natAbs).sum

/-- Spec feature: the count of fully occupied rows, independent of the
clear threshold. -/
def completeLinesSpec (grid : List (List (Option String))) (rows : ℕ) : ℕ :=
  ((List.range rows).filter fun r =>
    (grid.getD r []).all fun val => val.isSome).length

/-- The board of the executor demo: 2 x 2, empty, with the O piece at the
origin (blocked immediately below). -/
def execDemoGame : TetrisGame :=
  { grid := [[none, none], [none, none]], rows := 2, cols := 2,
    minLinesToClear := 1, enableLineClear := true,
    currentPiece := some ⟨.O, (SHAPES .O).shape, 0, 0, (SHAPES .O).colorOffset⟩,
    gameOver := false, bag := [.O] }

/-- The executor demo in the Rotating state with decision (0, 0, 0):
rotation count 0, zero horizontal distance, zero descent distance. -/
def execDemoState : ExecState :=
  ⟨execDemoGame, some ⟨0, 0, 0⟩, true, 0⟩

/-! ## C5: characterization of checkCollision -/

/-- The collision condition, spelled as an existential over the occupied
cells of the shape. -/
theorem checkCollision_char (g : TetrisGame) (shape : List (List Nat)) (x y : ℤ) :
    checkCollision g shape x y = true ↔
      ∃ r c, r < shape.length ∧ c < (shape.getD r []).length ∧
        (shape.getD r []).getD c 0 ≠ 0 ∧
        (x + c < 0 ∨ (g.cols : ℤ) ≤ x + c ∨ (g.rows : ℤ) ≤ y + r ∨
          (0 ≤ y + r ∧ (gridCell g.grid (y + r) (x + c)).isSome = true)) := by
  simp only [checkCollision, List.any_eq_true, List.mem_range, Bool.and_eq_true,
    Bool.or_eq_true, decide_eq_true_eq]
  constructor
  · rintro ⟨r, hr, c, hc, hcell, hcol⟩
    exact ⟨r, c, hr, hc, hcell, by tauto⟩
  · rintro ⟨r, c, hr, hc, hcell, hcol⟩
    exact ⟨r, hr, c, hc, hcell, by tauto⟩

/-- C5: checkCollision returns true iff some occupied cell of the shape
placed with top-left anchor at (x, y) is outside the column bounds, at or
below the last row, or overlaps an occupied grid cell at a row that is at
least 0; cells with negative resulting row are checked only against the
column and bottom bounds and never against grid contents. The function is
total, so no out-of-range placement raises an error: it is reported as a
collision. -/
theorem checkCollision_iff (g : TetrisGame) (shape : List (List Nat)) (x y : ℤ) :
    checkCollision g shape x y = true ↔
      ∃ r c, r < shape.length ∧ c < (shape.getD r []).length ∧
        (shape.getD r []).getD c 0 ≠ 0 ∧
        (x + c < 0 ∨ (g.cols : ℤ) ≤ x + c ∨ (g.rows : ℤ) ≤ y + r ∨
          (0 ≤ y + r ∧ (gridCell g.grid (y + r) (x + c)).isSome = true)) :=
  checkCollision_char g shape x y

/-! ## C1: failed spawn flags game over but keeps the old ActivePiece -/

/-- C1 counterexample: on the lockPiece path a failed spawn leaves the
previously locked piece still installed as the ActivePiece, so an
ActivePiece does exist while GameOverFlag is true, contradicting the claim
that spawnPiece leaves the ActivePiece unset. -/
theorem lock_failed_spawn_keeps_piece :
    (lockPiece [] lockDemoGame).gameOver = true ∧
      (lockPiece [] lockDemoGame).currentPiece ≠ none := by
  decide

/-- C1 amended: whenever the freshly drawn shape collides at its centered
spawn position, spawnPiece sets GameOverFlag and returns without installing
a piece, leaving the previous value of ActivePiece unchanged (not unset). -/
theorem spawn_collision_flags_gameOver (refill : List PieceType) (g : TetrisGame)
    (h : checkCollision (getNextPieceType refill g).2
      (SHAPES (getNextPieceType refill g).1).shape
      (spawnX (getNextPieceType refill g).2 (getNextPieceType refill g).1) 0 = true) :
    (spawnPiece refill g).gameOver = true ∧
      (spawnPiece refill g).currentPiece = g.currentPiece := by
  unfold spawnPiece
  simp only [h, if_true]
  constructor
  · trivial
  · show (getNextPieceType refill g).2.currentPiece = g.currentPiece
    unfold getNextPieceType fillBag
    split <;> rfl

/-- C1 amended witness: a board whose grid is full, so the next spawn
collides; the theorem applies and both conclusions hold there. -/
theorem spawn_collision_flags_gameOver_witness :
    (spawnPiece []
      { grid := [[some "I", some "I"], [some "I", some "I"]], rows := 2, cols := 2,
        minLinesToClear := 1, enableLineClear := true, currentPiece := none,
        gameOver := false, bag := [.O] }).gameOver = true ∧
    (spawnPiece []
      { grid := [[some "I", some "I"], [some "I", some "I"]], rows := 2, cols := 2,
        minLinesToClear := 1, enableLineClear := true, currentPiece := none,
        gameOver := false, bag := [.O] }).currentPiece = none :=
  spawn_collision_flags_gameOver [] _ (by decide)

/-! ## C2: processLineClears removes exactly the full rows -/

/-- Filtering an enumerated list on a property of the element alone and
projecting back is filtering the list itself. -/
theorem enumFrom_filter_snd {α : Type} (q : α → Bool) :
    ∀ (l : List α) (n : ℕ),
      ((List.enumFrom n l).filter fun p => q p.2).map Prod.snd = l.filter q
  | [], _ => rfl
  | a :: t, n => by
    rw [List.enumFrom]
    cases h : q a <;>
      simp [List.filter_cons, h, enumFrom_filter_snd q t (n + 1)]

/-- Counting grid rows through their indices equals counting them as
values. -/
theorem range_filter_getD_length {α : Type} (d : α) (q : α → Bool) :
    ∀ l : List α,
      ((List.range l.length).filter fun r => q (l.getD r d)).length =
        (l.filter q).length
  | [] => rfl
  | a :: t => by
    have hmap : (fun r => q ((a :: t).getD r d)) ∘ Nat.succ = fun r => q (t.getD r d) := by
      funext r
      rfl
    rw [List.length_cons, List.range_succ_eq_map, List.filter_cons, List.filter_map, hmap]
    cases h : q a <;> simp [h] <;>
      simpa [List.getD_eq_getElem?_getD] using range_filter_getD_length d q t

/-- C2: processLineClears finds the rows with no empty cell; when their
count k meets minLinesToClear it removes exactly those k rows (all of them,
even beyond the threshold), keeps the surviving rows in order, and prepends
k fresh empty rows; below the threshold the whole state is untouched. -/
theorem processLineClears_spec (g : TetrisGame) (hlen : g.grid.length = g.rows) :
    ((g.grid.filter isFullRow).length < g.minLinesToClear →
      processLineClears g = g) ∧
    (g.minLinesToClear ≤ (g.grid.filter isFullRow).length →
      (processLineClears g).grid =
        List.replicate (g.grid.filter isFullRow).length
            (List.replicate g.cols none) ++
          g.grid.filter fun row => !isFullRow row) := by
  have hcount :
      ((List.range g.rows).filter fun r => isFullRow (g.grid.getD r [])).length =
        (g.grid.filter isFullRow).length := by
    rw [← hlen]
    exact range_filter_getD_length [] isFullRow g.grid
  have hnew :
      ((g.grid.enum.filter fun p =>
          !decide (p.1 ∈ (List.range g.rows).filter fun r =>
            isFullRow (g.grid.getD r []))).map Prod.snd) =
        g.grid.filter fun row => !isFullRow row := by
    have hcongr :
        (g.grid.enum.filter fun p =>
            !decide (p.1 ∈ (List.range g.rows).filter fun r =>
              isFullRow (g.grid.getD r []))) =
          g.grid.enum.filter fun p => !isFullRow p.2 :=
      List.filter_congr fun p hp => by
        have hget : g.grid[p.1]? = some p.2 := List.mem_enum_iff_getElem?.mp hp
        have hlt : p.1 < g.grid.length := by
          rcases List.getElem?_eq_some_iff.mp hget with ⟨h, _⟩
          exact h
        have hgetD : g.grid.getD p.1 [] = p.2 := by
          rw [List.getD_eq_getElem?_getD, hget]
          rfl
        have hmem : (p.1 ∈ (List.range g.rows).filter fun r =>
            isFullRow (g.grid.getD r [])) ↔ isFullRow p.2 = true := by
          simp only [List.mem_filter, List.mem_range, hgetD]
          exact ⟨fun h => h.2, fun h => ⟨by omega, h⟩⟩
        have hdec : decide (p.1 ∈ (List.range g.rows).filter fun r =>
            isFullRow (g.grid.getD r [])) = isFullRow p.2 := by
          cases hq : isFullRow p.2 with
          | false =>
            exact decide_eq_false fun hP => by
              rw [hmem.mp hP] at hq
              exact absurd hq (by simp)
          | true => exact decide_eq_true (hmem.mpr hq)
        rw [hdec]
    rw [hcongr]
    exact enumFrom_filter_snd (fun row => !isFullRow row) g.grid 0
  have hlenadd :
      g.grid.length = (g.grid.filter isFullRow).length +
        (g.grid.filter fun row => !isFullRow row).length :=
    List.length_eq_length_filter_add isFullRow
  constructor
  · intro hlt
    unfold processLineClears
    rw [if_neg]
    rw [hcount]
    omega
  · intro hge
    unfold processLineClears
    rw [if_pos (by rw [hcount]; exact hge)]
    simp only [hnew]
    have : g.rows - (g.grid.filter fun row => !isFullRow row).length =
        (g.grid.filter isFullRow).length := by
      omega
    rw [this]

/-- C2 witness: a 3 x 2 board whose rows 0 and 2 are full with threshold 2;
both full rows go, two fresh rows arrive on top, the middle row survives. -/
theorem processLineClears_spec_witness :
    (2 : ℕ) ≤ (([[some "I", some "J"], [some "I", none], [some "J", some "J"]].filter
        isFullRow).length) ∧
    (processLineClears
        { grid := [[some "I", some "J"], [some "I", none], [some "J", some "J"]],
          rows := 3, cols := 2, minLinesToClear := 2, enableLineClear := true,
          currentPiece := none, gameOver := false, bag := [] }).grid =
      List.replicate
          (([[some "I", some "J"], [some "I", none], [some "J", some "J"]].filter
            isFullRow).length)
          (List.replicate 2 none) ++
        [[some "I", some "J"], [some "I", none], [some "J", some "J"]].filter
          (fun row => !isFullRow row) :=
  ⟨by decide,
    (processLineClears_spec
      { grid := [[some "I", some "J"], [some "I", none], [some "J", some "J"]],
        rows := 3, cols := 2, minLinesToClear := 2, enableLineClear := true,
        currentPiece := none, gameOver := false, bag := [] } (by decide)).2 (by decide)⟩

/-! ## C8: four rotations restore any rectangular shape -/

theorem rotateShape_length (s : List (List Nat)) :
    (rotateShape s).length = (s.getD 0 []).length := by
  simp [rotateShape]

theorem rotateShape_row_length (s : List (List Nat)) :
    ∀ row ∈ rotateShape s, row.length = s.length := by
  intro row h
  rcases List.mem_map.mp h with ⟨c, _, rfl⟩
  simp

theorem rotateShape_cellAt (s : List (List Nat)) (c i : ℕ)
    (hc : c < (s.getD 0 []).length) (hi : i < s.length) :
    cellAt (rotateShape s) c i = cellAt s (s.length - 1 - i) c := by
  unfold cellAt rotateShape
  rw [List.getD_eq_getElem _ [] (by simpa using hc), List.getElem_map,
    List.getElem_range, List.getD_eq_getElem _ 0 (by simpa using hi),
    List.getElem_map, List.getElem_range]

theorem getD_zero_mem {α : Type} (d : α) (l : List α) (h : 0 < l.length) :
    l.getD 0 d ∈ l := by
  rw [List.getD_eq_getElem l d h]
  exact List.getElem_mem h

theorem rotateShape_dims (t : List (List Nat)) (a b : ℕ) (hlen : t.length = a)
    (hrows : ∀ row ∈ t, row.length = b) (ha : 0 < a) :
    (rotateShape t).length = b ∧ ∀ row ∈ rotateShape t, row.length = a := by
  have hwid : (t.getD 0 []).length = b :=
    hrows _ (getD_zero_mem [] t (hlen ▸ ha))
  exact ⟨by rw [rotateShape_length, hwid],
    fun row h => by rw [rotateShape_row_length t row h, hlen]⟩

/-- Two rotations flip both indices of a rectangular matrix. -/
theorem rotateShape_twice (t : List (List Nat)) (a b : ℕ) (hlen : t.length = a)
    (hrows : ∀ row ∈ t, row.length = b) (ha : 0 < a) (hb : 0 < b) :
    (rotateShape (rotateShape t)).length = a ∧
      (∀ row ∈ rotateShape (rotateShape t), row.length = b) ∧
      ∀ r c, r < a → c < b →
        cellAt (rotateShape (rotateShape t)) r c = cellAt t (a - 1 - r) (b - 1 - c) := by
  have hwid : (t.getD 0 []).length = b :=
    hrows _ (getD_zero_mem [] t (hlen ▸ ha))
  have h1 := rotateShape_dims t a b hlen hrows ha
  have h2 := rotateShape_dims (rotateShape t) b a h1.1 h1.2 hb
  refine ⟨h2.1, h2.2, fun r c hr hc => ?_⟩
  have hwid1 : ((rotateShape t).getD 0 []).length = a :=
    h1.2 _ (getD_zero_mem [] (rotateShape t) (h1.1 ▸ hb))
  rw [rotateShape_cellAt (rotateShape t) r c (by rw [hwid1]; exact hr)
    (by rw [h1.1]; exact hc)]
  rw [h1.1]
  rw [rotateShape_cellAt t (b - 1 - c) r (by rw [hwid]; omega)
    (by rw [hlen]; exact hr)]
  rw [hlen]

set_option maxHeartbeats 1000000 in
/-- C8: applying rotateShape four times to any nonempty rectangular 0/1
matrix (in particular each of the 7 base shapes) returns the original
matrix, cell for cell. -/
theorem rotate_four_eq_self (s : List (List Nat)) (w : ℕ) (hm : 0 < s.length)
    (hw : 0 < w) (hrect : ∀ row ∈ s, row.length = w) :
    rotateShape (rotateShape (rotateShape (rotateShape s))) = s := by
  obtain ⟨hlen2, hrows2, hcell2⟩ :=
    rotateShape_twice s s.length w rfl hrect hm hw
  obtain ⟨hlen4, hrows4, hcell4⟩ :=
    rotateShape_twice (rotateShape (rotateShape s)) s.length w hlen2 hrows2 hm hw
  apply List.ext_getElem (by rw [hlen4])
  intro r hr4 hrs
  apply List.ext_getElem
  · rw [hrows4 _ (List.getElem_mem hr4), hrect _ (List.getElem_mem hrs)]
  intro c hc4 hcs
  have hrlt : r < s.length := hrs
  have hclt : c < w := by
    have hh := hrect _ (List.getElem_mem hrs)
    rw [hh] at hcs
    exact hcs
  have e1 : cellAt (rotateShape (rotateShape (rotateShape (rotateShape s)))) r c =
      cellAt (rotateShape (rotateShape s)) (s.length - 1 - r) (w - 1 - c) :=
    hcell4 r c hrlt hclt
  have e2 : cellAt (rotateShape (rotateShape s)) (s.length - 1 - r) (w - 1 - c) =
      cellAt s (s.length - 1 - (s.length - 1 - r)) (w - 1 - (w - 1 - c)) :=
    hcell2 _ _ (by omega) (by omega)
  have e3 : s.length - 1 - (s.length - 1 - r) = r := by omega
  have e4 : w - 1 - (w - 1 - c) = c := by omega
  rw [e3, e4] at e2
  have eL : cellAt (rotateShape (rotateShape (rotateShape (rotateShape s)))) r c =
      (rotateShape (rotateShape (rotateShape (rotateShape s))))[r][c] := by
    unfold cellAt
    rw [List.getD_eq_getElem _ [] hr4,
      List.getD_eq_getElem _ 0 hc4]
  have eR : cellAt s r c = s[r][c] := by
    unfold cellAt
    rw [List.getD_eq_getElem _ [] hrs, List.getD_eq_getElem _ 0 hcs]
  rw [← eL, ← eR, e1, e2]

/-- C8 witness: the S shape is a nonempty rectangular 2 x 3 matrix, and four
rotations restore it. -/
theorem rotate_four_eq_self_witness :
    0 < (SHAPES .S).shape.length ∧ (0 : ℕ) < 3 ∧
      (∀ row ∈ (SHAPES .S).shape, row.length = 3) ∧
      rotateShape (rotateShape (rotateShape (rotateShape (SHAPES .S).shape))) =
        (SHAPES .S).shape :=
  ⟨by decide, by decide, by decide,
    rotate_four_eq_self (SHAPES .S).shape 3 (by decide) (by decide) (by decide)⟩

/-! ## C7: bag fairness -/

/-- While the bag holds enough pieces, drawing pops its elements from the
back: n draws yield the first n entries of the reversed bag. -/
theorem drawN_take (refill : List PieceType) :
    ∀ (n : ℕ) (g : TetrisGame), n ≤ g.bag.length →
      (drawN refill n g).1 = g.bag.reverse.take n
  | 0, g, _ => by simp [drawN]
  | n + 1, g, h => by
    have hne : g.bag ≠ [] := by
      intro he
      rw [he] at h
      exact absurd h (by simp)
    have hemp : g.bag.isEmpty = false := by
      rcases he : g.bag.isEmpty with _ | _
      · rfl
      · exact absurd (List.isEmpty_iff.mp he) hne
    have hstep : getNextPieceType refill g =
        (g.bag.getLastD PieceType.I, { g with bag := g.bag.dropLast }) := by
      unfold getNextPieceType
      rw [hemp]
      rfl
    have hrev : g.bag.reverse = g.bag.getLast hne :: g.bag.dropLast.reverse := by
      conv_lhs => rw [← List.dropLast_append_getLast hne]
      rw [List.reverse_append]
      rfl
    have hlast : g.bag.getLastD PieceType.I = g.bag.getLast hne := by
      rw [List.getLastD_eq_getLast?, List.getLast?_eq_getLast g.bag hne]
      rfl
    have hlen : n ≤ g.bag.dropLast.length := by
      rw [List.length_dropLast]
      omega
    show (drawN refill (n + 1) g).1 = g.bag.reverse.take (n + 1)
    rw [drawN]
    simp only [hstep, hrev, hlast, List.take_succ_cons]
    rw [drawN_take refill n { g with bag := g.bag.dropLast } hlen]

/-- C7 amended: refills are modelled as arbitrary permutations of two
copies of the 7 kinds; over the 13 draws following a fresh refill every
kind appears at least once (the unrestricted claim, over draws spanning a
refill boundary, fails: see the counterexample). -/
theorem bag_fresh_window (b : List PieceType) (hb : b.Perm (pieces ++ pieces))
    (g : TetrisGame) (k : PieceType) (hk : k ∈ pieces) :
    k ∈ (drawN [] 13 (fillBag b g)).1 := by
  have hlen : b.length = 14 := by
    rw [hb.length_eq]
    rfl
  have htake : (drawN [] 13 (fillBag b g)).1 = b.reverse.take 13 :=
    drawN_take [] 13 (fillBag b g) (by simp [fillBag, hlen])
  rw [htake]
  have hall : ∀ k ∈ pieces, (pieces ++ pieces).count k = 2 := by decide
  have hcount : b.reverse.count k = 2 := by
    rw [List.count_reverse, hb.count_eq k]
    exact hall k hk
  have hsplit : b.reverse.take 13 ++ b.reverse.drop 13 = b.reverse :=
    List.take_append_drop 13 b.reverse
  have hdroplen : (b.reverse.drop 13).length = 1 := by
    rw [List.length_drop, List.length_reverse, hlen]
  have hdropcount : (b.reverse.drop 13).count k ≤ 1 := by
    rw [← hdroplen]
    exact List.count_le_length k _
  have htakecount : 0 < (b.reverse.take 13).count k := by
    have := List.count_append k (b.reverse.take 13) (b.reverse.drop 13)
    rw [hsplit, hcount] at this
    omega
  exact List.count_pos_iff.mp htakecount

/-- C7 amended witness: the identity permutation of the double piece set;
the I kind appears among the first 13 draws. -/
theorem bag_fresh_window_witness :
    (pieces ++ pieces).Perm (pieces ++ pieces) ∧ PieceType.I ∈ pieces ∧
      PieceType.I ∈ (drawN [] 13 (fillBag (pieces ++ pieces)
        { grid := [], rows := 0, cols := 0, minLinesToClear := 1,
          enableLineClear := true, currentPiece := none, gameOver := false,
          bag := [] })).1 :=
  ⟨List.Perm.refl _, by decide,
    bag_fresh_window (pieces ++ pieces) (List.Perm.refl _)
      { grid := [], rows := 0, cols := 0, minLinesToClear := 1,
        enableLineClear := true, currentPiece := none, gameOver := false,
        bag := [] } PieceType.I (by decide)⟩

/-- C7 counterexample: with two legitimate refill permutations in a row
(Z drawn first from the first bag, last from the second), the draw sequence
contains a window of 14 consecutive draws with no Z at all, refuting the
claim that no kind is ever skipped for more than 13 consecutive draws. -/
theorem bag_gap_fourteen :
    bagZFirst.Perm (pieces ++ pieces) ∧ bagZLast.Perm (pieces ++ pieces) ∧
      (((drawN bagZLast 28 (fillBag bagZFirst
          { grid := [], rows := 0, cols := 0, minLinesToClear := 1,
            enableLineClear := true, currentPiece := none, gameOver := false,
            bag := [] })).1.drop 2).take 14).length = 14 ∧
      PieceType.Z ∉ ((drawN bagZLast 28 (fillBag bagZFirst
          { grid := [], rows := 0, cols := 0, minLinesToClear := 1,
            enableLineClear := true, currentPiece := none, gameOver := false,
            bag := [] })).1.drop 2).take 14 := by
  decide

/-! ## C3 and C10: the exhaustive search of getBestMove -/

/-- A fold that skips elements failing a test is the plain fold over the
filterMapped list. -/
theorem foldl_if_skip {α β γ : Type} (p : α → Bool) (q : α → β) (f : γ → β → γ) :
    ∀ (xs : List α) (b : γ),
      xs.foldl (fun acc x => if p x then acc else f acc (q x)) b =
        (xs.filterMap fun x => if p x then none else some (q x)).foldl f b
  | [], _ => rfl
  | x :: t, b => by
    cases h : p x <;>
      simp [List.filterMap_cons, h, foldl_if_skip p q f t]

theorem searchInner_eq (g : TetrisGame) (r : ℕ) (shape : List (List Nat))
    (b : Move × Option ℚ) :
    searchInner g r shape b = (candAt g shape r).foldl considerMove b := by
  unfold searchInner candAt
  exact foldl_if_skip (fun x => checkCollision g shape x 0)
    (fun x => (⟨x, r, findDropY g shape x⟩,
      evaluateGrid g shape x (findDropY g shape x)))
    considerMove (xRange g) b

/-- The outer rotation fold of getBestMove: after n iterations the working
shape is the n-fold rotation and the running best is the considerMove fold
over the first n rotations' candidates. -/
theorem searchFold_spec (g : TetrisGame) (p : Piece) :
    ∀ (n : ℕ) (b : Move × Option ℚ),
      (List.range n).foldl (searchStep g) (p.shape, b) =
        (rotateShape^[n] p.shape,
          ((List.range n).flatMap fun r =>
            candAt g (rotateShape^[r] p.shape) r).foldl considerMove b)
  | 0, b => rfl
  | n + 1, b => by
    rw [List.range_succ, List.foldl_append, searchFold_spec g p n b]
    simp only [List.foldl_cons, List.foldl_nil, searchStep, searchInner_eq,
      List.flatMap_append, List.foldl_append, List.flatMap_cons,
      List.flatMap_nil, List.append_nil]
    rw [Function.iterate_succ_apply']

/-- getBestMove with a piece set is the considerMove fold over the full
candidate list, started at the fallback move with score -Infinity. -/
theorem getBestMove_eq_fold (g : TetrisGame) (p : Piece)
    (hp : g.currentPiece = some p) :
    getBestMove g = ((candidates g p).foldl considerMove (⟨p.x, 0, 0⟩, none)).1 := by
  unfold getBestMove candidates
  rw [hp]
  show (((List.range 4).foldl (searchStep g) (p.shape, ⟨p.x, 0, 0⟩, none)).2).1 = _
  rw [searchFold_spec g p 4 (⟨p.x, 0, 0⟩, none)]

/-- A considerMove fold does not move off a running best that no later
candidate strictly beats. -/
theorem considerFold_all_le (b : Move) (s : ℚ) :
    ∀ l : List (Move × ℚ), (∀ c ∈ l, c.2 ≤ s) →
      l.foldl considerMove (b, some s) = (b, some s)
  | [], _ => rfl
  | a :: t, h => by
    have ha : ¬ s < a.2 := not_lt.mpr (h a (by simp))
    show List.foldl considerMove (considerMove (b, some s) a) t = (b, some s)
    rw [show considerMove (b, some s) a = (b, some s) by
      simp [considerMove, ha]]
    exact considerFold_all_le b s t fun c hc => h c (by simp [hc])

/-- A considerMove fold that starts below some candidate ends on the first
candidate of maximal score among those beating the start: all earlier
candidates score strictly below it, all later ones at most it. -/
theorem considerFold_exists_gt :
    ∀ (l : List (Move × ℚ)) (b : Move) (s : ℚ), (∃ c ∈ l, s < c.2) →
      ∃ pre c post, l = pre ++ c :: post ∧
        l.foldl considerMove (b, some s) = (c.1, some c.2) ∧ s < c.2 ∧
        (∀ d ∈ pre, d.2 < c.2) ∧ ∀ d ∈ post, d.2 ≤ c.2
  | [], _, _, h => absurd h (by simp)
  | a :: t, b, s, h => by
    by_cases ha : s < a.2
    · have hstep : List.foldl considerMove ((b : Move), some s) (a :: t) =
          List.foldl considerMove (a.1, some a.2) t := by
        rw [List.foldl_cons, show considerMove (b, some s) a = (a.1, some a.2) by
          simp [considerMove, ha]]
      by_cases ht : ∃ d ∈ t, a.2 < d.2
      · obtain ⟨pre, c, post, hsplit, hfold, hlt, hpre, hpost⟩ :=
          considerFold_exists_gt t a.1 a.2 ht
        exact ⟨a :: pre, c, post, by rw [hsplit, List.cons_append], by rw [hstep, hfold],
          lt_trans ha hlt,
          fun d hd => by
            rcases List.mem_cons.mp hd with rfl | hd
            · exact hlt
            · exact hpre d hd,
          hpost⟩
      · push_neg at ht
        refine ⟨[], a, t, rfl, ?_, ha, by simp, ht⟩
        rw [hstep]
        exact considerFold_all_le a.1 a.2 t ht
    · rcases h with ⟨c0, hc0, hs0⟩
      have hc0t : c0 ∈ t := by
        rcases List.mem_cons.mp hc0 with rfl | hm
        · exact absurd hs0 ha
        · exact hm
      obtain ⟨pre, c, post, hsplit, hfold, hlt, hpre, hpost⟩ :=
        considerFold_exists_gt t b s ⟨c0, hc0t, hs0⟩
      have hstep : List.foldl considerMove ((b : Move), some s) (a :: t) =
          List.foldl considerMove (b, some s) t := by
        rw [List.foldl_cons, show considerMove (b, some s) a = (b, some s) by
          simp [considerMove, ha]]
      exact ⟨a :: pre, c, post, by rw [hsplit, List.cons_append], by rw [hstep, hfold], hlt,
        fun d hd => by
          rcases List.mem_cons.mp hd with rfl | hd
          · exact lt_of_le_of_lt (not_lt.mp ha) hlt
          · exact hpre d hd,
        hpost⟩

/-- Folding considerMove from the -Infinity start over a nonempty list
lands on the first candidate of maximal score. -/
theorem considerFold_first_max (l : List (Move × ℚ)) (b : Move) (hl : l ≠ []) :
    ∃ pre c post, l = pre ++ c :: post ∧
      (l.foldl considerMove (b, none)).1 = c.1 ∧
      (∀ d ∈ pre, d.2 < c.2) ∧ ∀ d ∈ post, d.2 ≤ c.2 := by
  match l, hl with
  | a :: t, _ =>
    have hstep : List.foldl considerMove ((b : Move), none) (a :: t) =
        List.foldl considerMove (a.1, some a.2) t := by
      rw [List.foldl_cons]
      rfl
    by_cases ht : ∃ d ∈ t, a.2 < d.2
    · obtain ⟨pre, c, post, hsplit, hfold, hlt, hpre, hpost⟩ :=
        considerFold_exists_gt t a.1 a.2 ht
      refine ⟨a :: pre, c, post, by rw [hsplit, List.cons_append], ?_, ?_, hpost⟩
      · rw [hstep, hfold]
      · intro d hd
        rcases List.mem_cons.mp hd with rfl | hd
        · exact hlt
        · exact hpre d hd
    · push_neg at ht
      refine ⟨[], a, t, rfl, ?_, by simp, ht⟩
      rw [hstep, considerFold_all_le a.1 a.2 t ht]

/-- An occupied cell exists at some valid index pair. -/
theorem hasOccupiedCell_index (shape : List (List Nat))
    (h : hasOccupiedCell shape = true) :
    ∃ r c, r < shape.length ∧ c < (shape.getD r []).length ∧
      (shape.getD r []).getD c 0 ≠ 0 := by
  simp only [hasOccupiedCell, List.any_eq_true, decide_eq_true_eq] at h
  obtain ⟨row, hrow, cell, hcell, hne⟩ := h
  obtain ⟨r, hr, hrEq⟩ := List.mem_iff_getElem.mp hrow
  obtain ⟨c, hc, hcEq⟩ := List.mem_iff_getElem.mp hcell
  have hgetD : shape.getD r [] = row := by
    rw [List.getD_eq_getElem _ [] hr, hrEq]
  refine ⟨r, c, hr, ?_, ?_⟩
  · rw [hgetD]
    exact hc
  · rw [hgetD, List.getD_eq_getElem _ 0 hc, hcEq]
    exact hne

/-- A shape with an occupied cell collides at every row at or below the
board, which bounds the source drop loop. -/
theorem collide_below (g : TetrisGame) (shape : List (List Nat))
    (hocc : hasOccupiedCell shape = true) (x y : ℤ) (hy : (g.rows : ℤ) ≤ y) :
    checkCollision g shape x y = true := by
  obtain ⟨r, c, hr, hc, hne⟩ := hasOccupiedCell_index shape hocc
  exact (checkCollision_char g shape x y).mpr
    ⟨r, c, hr, hc, hne, Or.inr (Or.inr (Or.inl (by omega)))⟩

/-- The drop loop keeps every reached position collision-free and stops
exactly when the next row down collides. -/
theorem dropAux_spec (g : TetrisGame) (shape : List (List Nat)) (x : ℤ)
    (hocc : hasOccupiedCell shape = true) :
    ∀ (fuel : ℕ) (dy : ℤ), 0 ≤ dy →
      (∀ k : ℤ, 0 ≤ k → k ≤ dy → checkCollision g shape x k = false) →
      (g.rows : ℤ) ≤ dy + fuel →
      (∀ k : ℤ, 0 ≤ k → k ≤ dropAux g shape x fuel dy →
        checkCollision g shape x k = false) ∧
        checkCollision g shape x (dropAux g shape x fuel dy + 1) = true
  | 0, dy, hdy, hinv, hfuel => by
    have hbelow : checkCollision g shape x dy = true :=
      collide_below g shape hocc x dy (by push_cast at hfuel; omega)
    rw [hinv dy hdy le_rfl] at hbelow
    exact absurd hbelow (by simp)
  | fuel + 1, dy, hdy, hinv, hfuel => by
    rcases hcol : checkCollision g shape x (dy + 1) with _ | _
    · rw [dropAux, if_neg (by rw [hcol]; exact Bool.false_ne_true)]
      refine dropAux_spec g shape x hocc fuel (dy + 1) (by omega) ?_ (by push_cast at hfuel ⊢; omega)
      intro k hk0 hk
      by_cases hk' : k ≤ dy
      · exact hinv k hk0 hk'
      · have : k = dy + 1 := by omega
        rw [this]
        exact hcol
    · rw [dropAux, if_pos hcol]
      exact ⟨hinv, hcol⟩

/-- Characterization of findDropY for a placement that does not collide at
y = 0: the landing row is reached without collision at any intermediate
row, and the next row down collides. -/
theorem findDropY_char (g : TetrisGame) (shape : List (List Nat)) (x : ℤ)
    (hocc : hasOccupiedCell shape = true)
    (h0 : checkCollision g shape x 0 = false) :
    (∀ k : ℤ, 0 ≤ k → k ≤ findDropY g shape x →
      checkCollision g shape x k = false) ∧
      checkCollision g shape x (findDropY g shape x + 1) = true := by
  unfold findDropY
  refine dropAux_spec g shape x hocc (g.rows + 1) 0 le_rfl ?_ (by push_cast; omega)
  intro k hk0 hk1
  have hk : k = 0 := le_antisymm hk1 hk0
  rw [hk]
  exact h0

/-- C3: the autopilot search is exhaustive and returns the first-found
best: without an ActivePiece the degenerate decision (0,0,0) is returned;
with one, getBestMove equals the strict-improvement fold over the candidate
list (rotations 0..3 outer, obtained by repeatedly applying rotateShape,
and x from -2 to cols+1 inner, skipping placements that collide at y = 0);
each scored landing row is the maximal drop (no collision at or above it,
collision one row further down); and whenever any candidate exists the
returned decision is the first candidate of maximal evaluateGrid score:
strictly above everything earlier, at least everything later. -/
theorem getBestMove_search_spec (g : TetrisGame) :
    (g.currentPiece = none → getBestMove g = ⟨0, 0, 0⟩) ∧
    ∀ p, g.currentPiece = some p →
      getBestMove g =
          ((candidates g p).foldl considerMove (⟨p.x, 0, 0⟩, none)).1 ∧
        (∀ r, r < 4 → ∀ x ∈ xRange g,
          hasOccupiedCell (rotateShape^[r] p.shape) = true →
          checkCollision g (rotateShape^[r] p.shape) x 0 = false →
          (∀ k : ℤ, 0 ≤ k → k ≤ findDropY g (rotateShape^[r] p.shape) x →
              checkCollision g (rotateShape^[r] p.shape) x k = false) ∧
            checkCollision g (rotateShape^[r] p.shape) x
              (findDropY g (rotateShape^[r] p.shape) x + 1) = true) ∧
        (candidates g p ≠ [] →
          ∃ pre c post, candidates g p = pre ++ c :: post ∧
            getBestMove g = c.1 ∧ (∀ d ∈ pre, d.2 < c.2) ∧
            ∀ d ∈ post, d.2 ≤ c.2) := by
  constructor
  · intro h
    unfold getBestMove
    rw [h]
  · intro p hp
    refine ⟨getBestMove_eq_fold g p hp, ?_, ?_⟩
    · intro r _ x _ hocc h0
      exact findDropY_char g (rotateShape^[r] p.shape) x hocc h0
    · intro hne
      obtain ⟨pre, c, post, hsplit, hfold, hpre, hpost⟩ :=
        considerFold_first_max (candidates g p) ⟨p.x, 0, 0⟩ hne
      refine ⟨pre, c, post, hsplit, ?_, hpre, hpost⟩
      rw [getBestMove_eq_fold g p hp]
      exact hfold

/-- C3 witness: on the concrete board the search result is the fold over
its candidate list. -/
theorem getBestMove_search_spec_witness :
    getBestMove searchDemoGame =
      ((candidates searchDemoGame
          ⟨.O, (SHAPES .O).shape, 1, 0, (SHAPES .O).colorOffset⟩).foldl
        considerMove (⟨1, 0, 0⟩, none)).1 :=
  ((getBestMove_search_spec searchDemoGame).2
    ⟨.O, (SHAPES .O).shape, 1, 0, (SHAPES .O).colorOffset⟩ rfl).1

/-- C10: when the piece is set but every (rotation, x) candidate collides
at y = 0, the search scores nothing and returns the initial fallback: the
piece's current x, rotation 0, drop 0. -/
theorem getBestMove_fallback (g : TetrisGame) (p : Piece)
    (hp : g.currentPiece = some p)
    (hall : ∀ r ∈ List.range 4, ∀ x ∈ xRange g,
      checkCollision g (rotateShape^[r] p.shape) x 0 = true) :
    getBestMove g = ⟨p.x, 0, 0⟩ := by
  have hempty : candidates g p = [] := by
    unfold candidates
    apply List.flatMap_eq_nil_iff.mpr
    intro r hr
    unfold candAt
    apply List.filterMap_eq_nil_iff.mpr
    intro x hx
    rw [if_pos (hall r hr x hx)]
  rw [getBestMove_eq_fold g p hp, hempty]
  rfl

/-- C10 witness: on the 1 x 1 board every candidate collides at y = 0 and
the fallback decision (current x, rotation 0, drop 0) is returned. -/
theorem getBestMove_fallback_witness :
    (∀ r ∈ List.range 4, ∀ x ∈ xRange fallbackDemoGame,
      checkCollision fallbackDemoGame
        (rotateShape^[r] (SHAPES PieceType.O).shape) x 0 = true) ∧
      getBestMove fallbackDemoGame = ⟨0, 0, 0⟩ :=
  ⟨by decide,
    getBestMove_fallback fallbackDemoGame
      ⟨.O, (SHAPES .O).shape, 0, 0, (SHAPES .O).colorOffset⟩ rfl (by decide)⟩

/-! ## C4: evaluateGrid is the weighted sum of the four features -/

/-- The fused column scan agrees, row prefix by row prefix, with the
spec-level height / found / holes values. -/
theorem colScan_fold_spec (grid : List (List (Option String))) (rows c : ℕ) :
    ∀ k : ℕ,
      (List.range k).foldl (colStep grid rows c) (0, false, 0) =
        ((match (List.range k).find?
              (fun r => ((grid.getD r []).getD c none).isSome) with
          | some r => rows - r
          | none => 0),
          (List.range k).any (fun r => ((grid.getD r []).getD c none).isSome),
          ((List.range k).filter fun r =>
            !((grid.getD r []).getD c none).isSome &&
              ((List.range r).any fun i =>
                ((grid.getD i []).getD c none).isSome)).length)
  | 0 => rfl
  | k + 1 => by
    rw [List.range_succ, List.foldl_append, colScan_fold_spec grid rows c k]
    rw [List.foldl_cons, List.foldl_nil]
    rw [List.find?_append, List.any_append, List.filter_append, List.length_append]
    rcases hfind : (List.range k).find?
        (fun r => ((grid.getD r []).getD c none).isSome) with _ | r0
    · have hany : (List.range k).any
          (fun r => ((grid.getD r []).getD c none).isSome) = false :=
        List.any_eq_false.mpr (List.find?_eq_none.mp hfind)
      rcases hocc : ((grid.getD k []).getD c none).isSome with _ | _ <;>
        simp only [colStep, hfind, hany, hocc, Option.none_or, List.find?_cons,
          List.find?_nil, List.any_cons, List.any_nil, List.filter_cons,
          List.filter_nil, Bool.or_false, Bool.false_or, Bool.not_false,
          Bool.not_true, Bool.false_and, Bool.true_and, Bool.and_false,
          Bool.and_true, List.length_nil, List.length_cons, Nat.add_zero,
          Bool.false_eq_true, if_false, if_true, ite_false, ite_true]
    · have hp0 := @List.find?_some _ _ _ _ hfind
      have hany : (List.range k).any
          (fun r => ((grid.getD r []).getD c none).isSome) = true :=
        List.any_eq_true.mpr ⟨r0, List.mem_of_find?_eq_some hfind, hp0⟩
      rcases hocc : ((grid.getD k []).getD c none).isSome with _ | _ <;>
        simp only [colStep, hfind, hany, hocc, List.find?_cons, List.find?_nil,
          List.any_cons, List.any_nil, List.filter_cons, List.filter_nil,
          Bool.or_false, Bool.false_or, Bool.true_or, Bool.not_false,
          Bool.not_true, Bool.false_and, Bool.true_and, Bool.and_false,
          Bool.and_true, List.length_nil, List.length_cons, Nat.add_zero,
          Bool.false_eq_true, if_false, if_true, ite_false, ite_true] <;>
        rfl

/-- The column scan computes the spec height and holes of its column. -/
theorem colScan_eq_spec (grid : List (List (Option String))) (rows c : ℕ) :
    colScan grid rows c =
      (columnHeightSpec grid rows c,
        (List.range rows).any (fun r => ((grid.getD r []).getD c none).isSome),
        columnHolesSpec grid rows c) := by
  unfold colScan columnHeightSpec columnHolesSpec
  exact colScan_fold_spec grid rows c rows

theorem getD_map_range (n i : ℕ) (f : ℕ → ℕ) (hi : i < n) :
    ((List.range n).map f).getD i 0 = f i := by
  rw [List.getD_eq_getElem _ 0 (by simpa using hi), List.getElem_map,
    List.getElem_range]

/-- C4: evaluateGrid simulates the placement on a scratch grid (occupied
source cells whose resulting row is outside the row bounds are never
written) and returns the weighted sum of aggregate height, complete lines
(counted regardless of the clear threshold), holes and bumpiness, with
weights (-0.51, 0.76, -0.6, -0.3) when line clearing is enabled and
(-0.2, 1.5, -0.6, -0.3) when disabled. -/
theorem evaluateGrid_spec (g : TetrisGame) (shape : List (List Nat)) (x y : ℤ) :
    evaluateGrid g shape x y =
      (if g.enableLineClear then (-51/100 : ℚ) else -1/5) *
          aggregateHeightSpec (placeTemp g shape x y) g.rows g.cols +
        (if g.enableLineClear then (76/100 : ℚ) else 3/2) *
          completeLinesSpec (placeTemp g shape x y) g.rows +
        (-3/5 : ℚ) * holesSpec (placeTemp g shape x y) g.rows g.cols +
        (-3/10 : ℚ) * bumpinessSpec (placeTemp g shape x y) g.rows g.cols := by
  unfold evaluateGrid
  dsimp only
  have hagg :
      ((List.range g.cols).map fun c =>
        (colScan (placeTemp g shape x y) g.rows c).1).sum =
      aggregateHeightSpec (placeTemp g shape x y) g.rows g.cols := by
    unfold aggregateHeightSpec
    simp only [colScan_eq_spec]
  have hholes :
      ((List.range g.cols).map fun c =>
        (colScan (placeTemp g shape x y) g.rows c).2.2).sum =
      holesSpec (placeTemp g shape x y) g.rows g.cols := by
    unfold holesSpec
    simp only [colScan_eq_spec]
  have hbump :
      ((List.range (g.cols - 1)).map fun c =>
        (((((List.range g.cols).map fun c =>
            (colScan (placeTemp g shape x y) g.rows c).1).getD c 0 : ℕ) : ℤ) -
          ((((List.range g.cols).map fun c =>
            (colScan (placeTemp g shape x y) g.rows c).1).getD (c + 1) 0 : ℕ) : ℤ)).natAbs).sum =
      bumpinessSpec (placeTemp g shape x y) g.rows g.cols := by
    unfold bumpinessSpec
    apply congrArg
    apply List.map_congr_left
    intro c hc
    have hc' : c < g.cols - 1 := List.mem_range.mp hc
    rw [getD_map_range g.cols c _ (by omega), getD_map_range g.cols (c + 1) _ (by omega)]
    simp only [colScan_eq_spec]
  have hcl :
      ((List.range g.rows).filter fun r =>
        ((placeTemp g shape x y).getD r []).all fun val => val.isSome).length =
      completeLinesSpec (placeTemp g shape x y) g.rows := rfl
  rw [hagg, hholes, hbump, hcl]

/-! ## C9: the search neither mutates the board nor varies across calls -/

theorem searchInnerSt_thread (r : ℕ) (shape : List (List Nat)) :
    ∀ (xs : List ℤ) (b : Move × Option ℚ) (g : TetrisGame),
      xs.foldl (searchInnerStepSt r shape) (b, g) =
        (xs.foldl (fun best x =>
          if checkCollision g shape x 0 then best
          else
            let y := findDropY g shape x
            considerMove best (⟨x, r, y⟩, evaluateGrid g shape x y)) b, g)
  | [], _, _ => rfl
  | x :: t, b, g => by
    rw [List.foldl_cons, List.foldl_cons]
    unfold searchInnerStepSt
    rcases h : checkCollision g shape x 0 with _ | _ <;>
      simp only [h, Bool.false_eq_true, if_false, if_true, ite_false, ite_true] <;>
      exact searchInnerSt_thread r shape t _ g

theorem searchStepSt_thread :
    ∀ (n : ℕ) (acc : List (List Nat) × Move × Option ℚ) (g : TetrisGame),
      (List.range n).foldl searchStepSt (acc, g) =
        ((List.range n).foldl (searchStep g) acc, g)
  | 0, _, _ => rfl
  | n + 1, acc, g => by
    rw [List.range_succ, List.foldl_append, List.foldl_append,
      searchStepSt_thread n acc g]
    rw [List.foldl_cons, List.foldl_nil, List.foldl_cons, List.foldl_nil]
    unfold searchStepSt searchStep searchInner
    rw [searchInnerSt_thread]

/-- C9: the search is pure: the state-passing getBestMove hands back the
board exactly as given (grid, ActivePiece, bag, GameOverFlag, dimensions
all unchanged), computes the same decision as getBestMove, and a second
call on the returned state yields the same decision as the first. -/
theorem getBestMove_pure (g : TetrisGame) :
    (getBestMoveSt g).2 = g ∧ (getBestMoveSt g).1 = getBestMove g ∧
      (getBestMoveSt ((getBestMoveSt g).2)).1 = (getBestMoveSt g).1 := by
  have h1 : (getBestMoveSt g).2 = g ∧ (getBestMoveSt g).1 = getBestMove g := by
    unfold getBestMoveSt getBestMove
    rcases hcp : g.currentPiece with _ | p
    · exact ⟨rfl, rfl⟩
    · dsimp only
      rw [searchStepSt_thread 4 (p.shape, ⟨p.x, 0, 0⟩, none) g]
      exact ⟨rfl, rfl⟩
  refine ⟨h1.1, h1.2, ?_⟩
  rw [h1.1]

/-! ## C6: executor convergence -/

/-- checkCollision only reads grid and dimensions, never the piece slot. -/
theorem checkCollision_set_piece (g : TetrisGame) (z : Option Piece)
    (shape : List (List Nat)) (x y : ℤ) :
    checkCollision { g with currentPiece := z } shape x y =
      checkCollision g shape x y := rfl

theorem piece_set_x_self (q : Piece) (v : ℤ) (h : q.x = v) :
    { q with x := v } = q := by
  cases q
  cases h
  rfl

/-- The first Rotating tick applies all rotations at once and advances to
Translating. -/
theorem exec_rotate_step (refill : List PieceType) (g : TetrisGame)
    (mv : Move) (b : Bool) (q : Piece) :
    performAIInterpStep refill ⟨{ g with currentPiece := some q }, some mv, b, 0⟩ =
      ⟨{ g with currentPiece := some { q with shape := rotateShape^[mv.rotation] q.shape } },
        some mv, b, 1⟩ := by
  rfl

/-- A Translating tick with the piece left of the target moves it right. -/
theorem exec_translate_right (refill : List PieceType) (g : TetrisGame)
    (mv : Move) (b : Bool) (q : Piece) (hlt : q.x < mv.x) :
    performAIInterpStep refill ⟨{ g with currentPiece := some q }, some mv, b, 1⟩ =
      ⟨{ g with currentPiece := some { q with x := q.x + 1 } }, some mv, b, 1⟩ := by
  show (if q.x < mv.x then _ else _) = _
  rw [if_pos hlt]

/-- A Translating tick with the piece right of the target moves it left. -/
theorem exec_translate_left (refill : List PieceType) (g : TetrisGame)
    (mv : Move) (b : Bool) (q : Piece) (hgt : mv.x < q.x) :
    performAIInterpStep refill ⟨{ g with currentPiece := some q }, some mv, b, 1⟩ =
      ⟨{ g with currentPiece := some { q with x := q.x - 1 } }, some mv, b, 1⟩ := by
  show (if q.x < mv.x then _ else _) = _
  rw [if_neg (by omega), if_pos hgt]

/-- A Translating tick with the piece at the target only advances the
sub-step index (one full tick is spent noticing arrival). -/
theorem exec_translate_done (refill : List PieceType) (g : TetrisGame)
    (mv : Move) (b : Bool) (q : Piece) (hx : q.x = mv.x) :
    performAIInterpStep refill ⟨{ g with currentPiece := some q }, some mv, b, 1⟩ =
      ⟨{ g with currentPiece := some q }, some mv, b, 2⟩ := by
  show (if q.x < mv.x then _ else _) = _
  rw [if_neg (by omega), if_neg (by omega)]

/-- Piece record update algebra used by the phase proofs. -/
theorem piece_set_y_twice (q : Piece) (a c : ℤ) :
    ({ { q with y := a } with y := c } : Piece) = { q with y := c } := by
  cases q
  rfl

theorem piece_set_y_proj (q : Piece) (a : ℤ) :
    ({ q with y := a } : Piece).y = a := rfl

/-- A Descending tick with free space below moves the piece down one row. -/
theorem exec_descend_step (refill : List PieceType) (g : TetrisGame)
    (mv : Move) (b : Bool) (q : Piece)
    (hfree : checkCollision g q.shape q.x (q.y + 1) = false) :
    performAIInterpStep refill ⟨{ g with currentPiece := some q }, some mv, b, 2⟩ =
      ⟨{ g with currentPiece := some { q with y := q.y + 1 } }, some mv, b, 2⟩ := by
  have h2 : checkCollision { g with currentPiece := some q } q.shape q.x (q.y + 1) =
      false := hfree
  unfold performAIInterpStep
  dsimp only
  rw [h2]
  rfl

/-- A blocked Descending tick locks the piece and returns to Idle. -/
theorem exec_lock_step (refill : List PieceType) (g : TetrisGame)
    (mv : Move) (b : Bool) (q : Piece)
    (hcol : checkCollision g q.shape q.x (q.y + 1) = true) :
    performAIInterpStep refill ⟨{ g with currentPiece := some q }, some mv, b, 2⟩ =
      ⟨lockPiece refill { g with currentPiece := some q }, none, false, 2⟩ := by
  have h2 : checkCollision { g with currentPiece := some q } q.shape q.x (q.y + 1) =
      true := hcol
  unfold performAIInterpStep
  dsimp only
  rw [h2]
  rfl

/-- The Translating phase: |targetColumn - x| ticks bring the piece to the
target column, leaving the sub-step index at 1. -/
theorem exec_translate_phase (refill : List PieceType) (g : TetrisGame)
    (mv : Move) (b : Bool) :
    ∀ (n : ℕ) (q : Piece), (mv.x - q.x).natAbs = n →
      (performAIInterpStep refill)^[n]
          ⟨{ g with currentPiece := some q }, some mv, b, 1⟩ =
        ⟨{ g with currentPiece := some { q with x := mv.x } }, some mv, b, 1⟩
  | 0, q, h => by
    rw [Function.iterate_zero_apply, piece_set_x_self q mv.x (by omega)]
  | n + 1, q, h => by
    rw [Function.iterate_succ_apply]
    by_cases hlt : q.x < mv.x
    · rw [exec_translate_right refill g mv b q hlt]
      have := exec_translate_phase refill g mv b n { q with x := q.x + 1 }
        (by simp only []; omega)
      simpa using this
    · have hgt : mv.x < q.x := by omega
      rw [exec_translate_left refill g mv b q hgt]
      have := exec_translate_phase refill g mv b n { q with x := q.x - 1 }
        (by simp only []; omega)
      simpa using this

/-- The Descending phase: d free rows then the blocked tick lock the piece
after d + 1 ticks and return the executor to Idle. -/
theorem exec_descend_phase (refill : List PieceType) (g : TetrisGame)
    (mv : Move) (b : Bool) :
    ∀ (d : ℕ) (q : Piece),
      checkCollision g q.shape q.x (q.y + d + 1) = true →
      (∀ m : ℕ, m < d → checkCollision g q.shape q.x (q.y + m + 1) = false) →
      (performAIInterpStep refill)^[d + 1]
          ⟨{ g with currentPiece := some q }, some mv, b, 2⟩ =
        ⟨lockPiece refill { g with currentPiece := some { q with y := q.y + d } },
          none, false, 2⟩
  | 0, q, hcol, _ => by
    rw [Function.iterate_one]
    have hcol' : checkCollision g q.shape q.x (q.y + 1) = true := by
      have harg : q.y + ((0 : ℕ) : ℤ) + 1 = q.y + 1 := by push_cast; ring
      rw [harg] at hcol
      exact hcol
    rw [exec_lock_step refill g mv b q hcol']
    have hq : { q with y := q.y + ((0 : ℕ) : ℤ) } = q := by
      cases q
      simp
    rw [hq]
  | d + 1, q, hcol, hfree => by
    rw [Function.iterate_succ_apply]
    have hfree0 : checkCollision g q.shape q.x (q.y + 1) = false := by
      have := hfree 0 (by omega)
      have harg : q.y + ((0 : ℕ) : ℤ) + 1 = q.y + 1 := by push_cast; ring
      rw [harg] at this
      exact this
    rw [exec_descend_step refill g mv b q hfree0]
    have hrec := exec_descend_phase refill g mv b d { q with y := q.y + 1 }
      (by
        show checkCollision g q.shape q.x (q.y + 1 + d + 1) = true
        have harg : q.y + 1 + (d : ℤ) + 1 = q.y + ((d + 1 : ℕ) : ℤ) + 1 := by
          push_cast
          ring
        rw [harg]
        exact hcol)
      (by
        intro m hm
        show checkCollision g q.shape q.x (q.y + 1 + m + 1) = false
        have harg : q.y + 1 + (m : ℤ) + 1 = q.y + ((m + 1 : ℕ) : ℤ) + 1 := by
          push_cast
          ring
        rw [harg]
        exact hfree (m + 1) (by omega))
    rw [hrec, piece_set_y_twice, piece_set_y_proj]
    have harg2 : q.y + 1 + (d : ℤ) = q.y + ((d + 1 : ℕ) : ℤ) := by
      push_cast
      ring
    rw [harg2]

/-- C6 amended: from the Rotating state with a piece set, the executor
reaches Idle with a lock in exactly |targetColumn - x| + d + 3 sub-step
ticks, where d is the free descent distance of the rotated piece at the
target column: one tick applies all the rotations at once, |dx| ticks
translate plus one tick to notice arrival, and d + 1 ticks descend and
lock. (The claimed bound rotationCount + |dx| + d + 1 undercounts the two
phase-advance ticks and fails for rotation counts 0 and 1; see the
counterexample.) -/
theorem executor_convergence (refill : List PieceType) (g : TetrisGame)
    (p : Piece) (mv : Move) (hp : g.currentPiece = some p) (d : ℕ)
    (hcol : checkCollision g (rotateShape^[mv.rotation] p.shape) mv.x
      (p.y + d + 1) = true)
    (hfree : ∀ m : ℕ, m < d →
      checkCollision g (rotateShape^[mv.rotation] p.shape) mv.x
        (p.y + m + 1) = false) :
    (performAIInterpStep refill)^[(mv.x - p.x).natAbs + d + 3]
        ⟨g, some mv, true, 0⟩ =
      ⟨lockPiece refill { g with currentPiece := some ⟨p.type, rotateShape^[mv.rotation] p.shape, mv.x, p.y + d, p.colorOffset⟩ },
        none, false, 2⟩ := by
  have hg : { g with currentPiece := some p } = g := by
    rw [← hp]
  have hs0 : (⟨g, some mv, true, 0⟩ : ExecState) =
      ⟨{ g with currentPiece := some p }, some mv, true, 0⟩ := by
    rw [hg]
  have key : ∀ s : ExecState,
      (performAIInterpStep refill)^[(mv.x - p.x).natAbs + d + 3] s =
        (performAIInterpStep refill)^[d + 1]
          (performAIInterpStep refill
            ((performAIInterpStep refill)^[(mv.x - p.x).natAbs]
              (performAIInterpStep refill s))) := by
    intro s
    rw [show (mv.x - p.x).natAbs + d + 3 =
      (d + 1) + (1 + ((mv.x - p.x).natAbs + 1)) from by omega]
    rw [Function.iterate_add_apply (performAIInterpStep refill) (d + 1)
      (1 + ((mv.x - p.x).natAbs + 1)) s]
    rw [Function.iterate_add_apply (performAIInterpStep refill) 1
      ((mv.x - p.x).natAbs + 1) s]
    rw [Function.iterate_add_apply (performAIInterpStep refill)
      (mv.x - p.x).natAbs 1 s]
    rw [Function.iterate_one]
  rw [hs0, key]
  rw [exec_rotate_step refill g mv true p]
  rw [exec_translate_phase refill g mv true ((mv.x - p.x).natAbs)
    ⟨p.type, rotateShape^[mv.rotation] p.shape, p.x, p.y, p.colorOffset⟩ rfl]
  rw [exec_translate_done refill g mv true
    ⟨p.type, rotateShape^[mv.rotation] p.shape, mv.x, p.y, p.colorOffset⟩ rfl]
  rw [exec_descend_phase refill g mv true d
    ⟨p.type, rotateShape^[mv.rotation] p.shape, mv.x, p.y, p.colorOffset⟩
    hcol hfree]

/-- C6 counterexample: with rotation count 0, zero horizontal distance and
zero descent distance (the piece is already blocked below), the claimed
bound allows 0 + 0 + 0 + 1 = 1 tick, but neither initially nor after one
tick is the executor Idle: the first tick is spent applying the (empty)
rotation phase. -/
theorem executor_bound_counterexample :
    execDemoState.currentMove = some ⟨0, 0, 0⟩ ∧
      (∃ p, execDemoState.game.currentPiece = some p ∧ p.x = 0 ∧
        checkCollision execDemoState.game p.shape 0 1 = true) ∧
      execDemoState.isProcessingMove = true ∧
      (performAIInterpStep [] execDemoState).isProcessingMove = true := by
  exact ⟨rfl,
    ⟨⟨.O, (SHAPES .O).shape, 0, 0, (SHAPES .O).colorOffset⟩, rfl, rfl, by decide⟩,
    rfl, by decide⟩

/-- C6 amended witness: on the demo state the executor locks and is Idle
after exactly 0 + 0 + 3 = 3 ticks. -/
theorem executor_convergence_witness :
    (performAIInterpStep [])^[3] execDemoState =
      ⟨lockPiece [] { execDemoGame with currentPiece := some ⟨.O, (SHAPES .O).shape, 0, 0, (SHAPES .O).colorOffset⟩ },
        none, false, 2⟩ :=
  executor_convergence [] execDemoGame
    ⟨.O, (SHAPES .O).shape, 0, 0, (SHAPES .O).colorOffset⟩ ⟨0, 0, 0⟩ rfl 0
    (by decide) (fun m hm => absurd hm (by omega))

end Tetris
